import Mathlib

/-!
Shallow embedding of the Bookmark Taxonomy Engine
(`src/utils/bookmark-manager.ts` and `src/utils/llm-classifier.ts`).

String primitives model the JavaScript string operations the source uses
(`toLowerCase`, `trim`, regex replaces over the `\s`, `\p{L}`, `\p{N}` and `/`
character classes, `String.prototype.normalize('NFKD')`), restricted to the
character repertoire exercised in this development: ASCII case mapping, the
common whitespace code points, ASCII letters and digits as the letter/number
class, and NFKD-stable characters (ASCII and emoji, which have no
compatibility decomposition).
-/

/-- Whitespace test modelling the JavaScript `\s` class and `trim`
(restricted to the common whitespace code points). -/
def isJsWs (c : Char) : Bool :=
  c == ' ' || c == '\t' || c == '\n' || c == '\r' ||
  c == Char.ofNat 11 || c == Char.ofNat 12 || c == Char.ofNat 160 ||
  c == Char.ofNat 0xFEFF

/-- JavaScript `toLowerCase`, restricted to ASCII case mapping. -/
def jsToLower (s : String) : String :=
  String.mk (s.data.map Char.toLower)

/-- JavaScript `String.prototype.trim`: drop leading and trailing whitespace. -/
def jsTrim (s : String) : String :=
  String.mk (((s.data.dropWhile isJsWs).reverse.dropWhile isJsWs).reverse)

/-- The regex replace `^\/+` → `''`: drop the leading run of slashes. -/
def dropLeadingSlashes (l : List Char) : List Char :=
  l.dropWhile (· == '/')

/-- The regex replace `\/+$` → `''`: drop the trailing run of slashes. -/
def dropTrailingSlashes (l : List Char) : List Char :=
  (l.reverse.dropWhile (· == '/')).reverse

/-- Worker for `collapseWs`; the flag records whether the previous character
was whitespace (i.e. we are inside a run already replaced by one space). -/
def collapseWsGo : Bool → List Char → List Char
  | _, [] => []
  | prevWs, c :: rest =>
    if isJsWs c then
      if prevWs then collapseWsGo true rest
      else ' ' :: collapseWsGo true rest
    else c :: collapseWsGo false rest

/-- The regex replace `\s+` → `' '`: collapse every whitespace run to one space. -/
def collapseWs (l : List Char) : List Char :=
  collapseWsGo false l

/-- The `[\p{L}\p{N}]` test of the source, restricted to ASCII letters and digits. -/
def isLetterOrNumberChar (c : Char) : Bool :=
  c.isAlpha || c.isDigit

/-- The regex replace `^[^\p{L}\p{N}]+` → `''`: strip the leading run of
non-letter/non-number characters (decorative emoji prefixes and the like). -/
def dropLeadingNonAlnum (l : List Char) : List Char :=
  l.dropWhile (fun c => !(isLetterOrNumberChar c))

/-- JavaScript `String.prototype.normalize('NFKD')`, restricted to NFKD-stable
characters (ASCII and emoji have no compatibility decomposition, so on the
repertoire of this development the decomposition is the identity). -/
def nfkd (s : String) : String := s

/-- `BookmarkManager.normalizeFolderName`: lowercase, trim, strip leading and
trailing slashes, collapse whitespace runs, strip the leading run of
non-letter/non-number characters, then NFKD-normalize. -/
def normalizeFolderName (name : String) : String :=
  nfkd (String.mk (dropLeadingNonAlnum (collapseWs
    (dropTrailingSlashes (dropLeadingSlashes (jsTrim (jsToLower name)).data)))))

/-- The title a created folder is stored with:
`rawName.trim().replace(/^\/+|\/+$/g, '')`. -/
def storedTitle (raw : String) : String :=
  String.mk (dropTrailingSlashes (dropLeadingSlashes (jsTrim raw).data))

/-- Worker for `sanitizeFolderPath`: the `seen` set of canonical keys,
modelled as the list of keys added so far. -/
def sanitizeGo : List String → List String → List String
  | [], _ => []
  | p :: rest, seen =>
    let key := normalizeFolderName p
    if seen.contains key then sanitizeGo rest seen
    else p :: sanitizeGo rest (key :: seen)

/-- `BookmarkManager.sanitizeFolderPath`: trim every segment, drop empty
segments, then drop any segment whose canonical key was already seen. -/
def sanitizeFolderPath (path : List String) : List String :=
  sanitizeGo ((path.map jsTrim).filter (fun p => decide (0 < p.length))) []

/-! ### The Bookmark Store, modelled as the flat id-indexed table the
`chrome.bookmarks` API presents: `getChildren pid` lists the rows whose
parent is `pid` in insertion order, and `create` appends a fresh row. -/

/-- One bookmark node as stored: id, parent id, title, and the optional url
(`none` for folders). -/
structure Entry where
  id : String
  parentId : String
  title : String
  url : Option String
deriving DecidableEq

/-- The bookmark store: the rows in insertion order plus the fresh-id supply. -/
structure Store where
  entries : List Entry
  counter : Nat
deriving DecidableEq

/-- Fresh ids issued by the store on creation (injective, and assumed distinct
from pre-existing ids where a theorem needs that). -/
def genId (n : Nat) : String :=
  String.mk (List.replicate (n + 1) '*')

/-- `chrome.bookmarks.getChildren(parentId)`: the children of `parentId` in order. -/
def getChildren (s : Store) (pid : String) : List Entry :=
  s.entries.filter (fun e => e.parentId == pid)

/-- `chrome.bookmarks.create({parentId, title})` for a folder: append a fresh
row and return its id together with the updated store. -/
def createFolder (s : Store) (pid : String) (title : String) : String × Store :=
  (genId s.counter,
   ⟨s.entries ++ [⟨genId s.counter, pid, title, none⟩], s.counter + 1⟩)

/-- `BookmarkManager.findFolder`: the first child of `parentId` that is not a
link and whose title normalizes to the canonical key of `name`. -/
def findFolder (s : Store) (pid : String) (name : String) : Option Entry :=
  (getChildren s pid).find? (fun c =>
    c.url.isNone && (normalizeFolderName c.title == normalizeFolderName name))

/-- The loop body of `BookmarkManager.ensureFolderPath`: walk the path from
`cur`, skipping a segment whose key equals the previous accepted key,
descending into a matching child when found and creating one otherwise. -/
def ensureGo : Store → String → Option String → List String → String × Store
  | s, cur, _, [] => (cur, s)
  | s, cur, prev, raw :: rest =>
    let nrm := normalizeFolderName raw
    if prev = some nrm then ensureGo s cur prev rest
    else
      match findFolder s cur raw with
      | some c => ensureGo s c.id (some nrm) rest
      | none =>
        let res := createFolder s cur (storedTitle raw)
        ensureGo res.2 res.1 (some nrm) rest

/-- `BookmarkManager.ensureFolderPath`: resolve/create the chain of folders
for `path` starting at the bookmarks-menu container `'1'`. -/
def ensureFolderPath (s : Store) (path : List String) : String × Store :=
  ensureGo s "1" none path

/-! ### The bookmark tree snapshot and `removeEmptyFolders`
(`chrome.bookmarks.getTree()` returns a nested tree which the sweep traverses
post-order, calling `chrome.bookmarks.remove` on folders found empty; whether
a `remove` call succeeds is abstracted by the oracle `ro`). -/

/-- One node of the fetched bookmark tree: id, title, optional url (present
exactly on links), and the snapshot of children. -/
inductive BNode where
  | mk (id : String) (title : String) (url : Option String) (children : List BNode)

def BNode.id : BNode → String
  | .mk i _ _ _ => i

def BNode.url : BNode → Option String
  | .mk _ _ u _ => u

def BNode.children : BNode → List BNode
  | .mk _ _ _ cs => cs

/-- The protected identifiers: root `'0'`, Bookmarks Bar `'1'`,
Other Bookmarks `'2'`, and `'3'`. -/
def systemIds : List String := ["0", "1", "2", "3"]

/-- The observable outcome of visiting one node: the boolean the recursion
returns (`true` = empty, i.e. removed or eligible), the removed-count, the ids
actually removed (in removal order), and the ids `remove` was invoked on. -/
structure SweepResult where
  reportedEmpty : Bool
  count : Nat
  removed : List String
  attempted : List String
deriving DecidableEq

/-- The accumulated outcome of visiting a child list in order. -/
structure ChildrenScan where
  hasContent : Bool
  count : Nat
  removed : List String
  attempted : List String
deriving DecidableEq

mutual
/-- `traverseAndRemove` from `removeEmptyFolders`: a link reports not-empty at
once; a folder scans its children, then, if no child reported content and its
id is not protected, attempts removal (success per the oracle `ro`). -/
def traverseAndRemove (ro : String → Bool) : BNode → SweepResult
  | .mk i _ url cs =>
    match url with
    | some _ => ⟨false, 0, [], []⟩
    | none =>
      let r := sweepChildren ro cs
      if !r.hasContent && !(systemIds.contains i) then
        if ro i then ⟨true, r.count + 1, r.removed ++ [i], r.attempted ++ [i]⟩
        else ⟨false, r.count, r.removed, r.attempted ++ [i]⟩
      else ⟨!r.hasContent, r.count, r.removed, r.attempted⟩

/-- The loop over the (snapshot of the) child list: a child whose visit
returns `false` marks the folder as having content. -/
def sweepChildren (ro : String → Bool) : List BNode → ChildrenScan
  | [] => ⟨false, 0, [], []⟩
  | c :: rest =>
    let rc := traverseAndRemove ro c
    let rr := sweepChildren ro rest
    ⟨(!rc.reportedEmpty) || rr.hasContent, rc.count + rr.count,
     rc.removed ++ rr.removed, rc.attempted ++ rr.attempted⟩
end

/-- `BookmarkManager.removeEmptyFolders`: traverse the first root of the
fetched tree and return the total number of folders removed. -/
def removeEmptyFolders (ro : String → Bool) (tree : List BNode) : Nat :=
  match tree with
  | [] => 0
  | t :: _ => (traverseAndRemove ro t).count

mutual
/-- All ids occurring in the tree (the node and its descendants). -/
def allIds : BNode → List String
  | .mk i _ _ cs => i :: allIdsList cs

def allIdsList : List BNode → List String
  | [] => []
  | c :: rest => allIds c ++ allIdsList rest
end

mutual
/-- Ids of the non-link (folder) nodes of the tree. -/
def folderIds : BNode → List String
  | .mk i _ url cs =>
    match url with
    | some _ => folderIdsList cs
    | none => i :: folderIdsList cs

def folderIdsList : List BNode → List String
  | [] => []
  | c :: rest => folderIds c ++ folderIdsList rest
end

mutual
/-- The links of the tree, as (id, url) pairs. -/
def linksOf : BNode → List (String × String)
  | .mk i _ url cs =>
    match url with
    | some u => (i, u) :: linksOfList cs
    | none => linksOfList cs

def linksOfList : List BNode → List (String × String)
  | [] => []
  | c :: rest => linksOf c ++ linksOfList rest
end

mutual
/-- All subtrees of the tree (the node itself and the subtrees of children). -/
def subtreesOf : BNode → List BNode
  | .mk i t u cs => .mk i t u cs :: subtreesOfList cs

def subtreesOfList : List BNode → List BNode
  | [] => []
  | c :: rest => subtreesOf c ++ subtreesOfList rest
end

mutual
/-- Erase from the tree every node whose id is listed (with its subtree);
models the store content after the sweep's successful removals. -/
def eraseIds (ids : List String) : BNode → Option BNode
  | .mk i t u cs =>
    if ids.contains i then none
    else some (.mk i t u (eraseIdsList ids cs))

def eraseIdsList (ids : List String) : List BNode → List BNode
  | [] => []
  | c :: rest =>
    match eraseIds ids c with
    | some c2 => c2 :: eraseIdsList ids rest
    | none => eraseIdsList ids rest
end

/-- The links of an optional tree (`none` = the whole tree was erased). -/
def linksOfOpt : Option BNode → List (String × String)
  | none => []
  | some t => linksOf t

/-! ### The classification orchestrator (`src/utils/llm-classifier.ts`). -/

/-- Leading-run comparison on character lists (worker for `strStarts`). -/
def charsLead : List Char → List Char → Bool
  | [], _ => true
  | _ :: _, [] => false
  | a :: as, b :: bs => a == b && charsLead as bs

/-- JavaScript `String.prototype.startsWith`. -/
def strStarts (s pre : String) : Bool :=
  charsLead pre.data s.data

/-- Substring search on character lists (worker for `strHas`). -/
def charsHave (needle : List Char) : List Char → Bool
  | [] => charsLead needle []
  | c :: rest => charsLead needle (c :: rest) || charsHave needle rest

/-- JavaScript `String.prototype.includes`. -/
def strHas (s needle : String) : Bool :=
  charsHave needle.data s.data

/-- One inference endpoint family: `{name, baseURL, model}`. -/
structure AIProvider where
  name : String
  baseURL : String
  model : String
deriving DecidableEq

def providerOpenai : AIProvider :=
  ⟨"OpenAI", "https://api.openai.com/v1", "gpt-3.5-turbo"⟩

def providerMoonshot : AIProvider :=
  ⟨"Moonshot (Kimi)", "https://api.moonshot.ai/v1", "kimi-k2-0711-preview"⟩

def providerGrok : AIProvider :=
  ⟨"Grok", "https://api.x.ai/v1", "grok-beta"⟩

def providerOpenrouter : AIProvider :=
  ⟨"OpenRouter", "https://openrouter.ai/api/v1", "openai/gpt-4o-mini"⟩

def providerGroq : AIProvider :=
  ⟨"Groq", "https://api.groq.com/openai/v1", "llama-3.3-70b-versatile"⟩

def providerCopilot : AIProvider :=
  ⟨"GitHub Copilot", "https://api.githubcopilot.com", "gpt-4o"⟩

/-- The `this.providers` record keyed by provider name. -/
def providerLookup : String → Option AIProvider
  | "openai" => some providerOpenai
  | "moonshot" => some providerMoonshot
  | "grok" => some providerGrok
  | "openrouter" => some providerOpenrouter
  | "groq" => some providerGroq
  | "copilot" => some providerCopilot
  | _ => none

/-- `LlmClassifier.detectProvider`: the ordered chain of credential-shape
rules, exactly as in the source. -/
def detectProvider (apiKey : String) : AIProvider :=
  if strStarts apiKey "gho_" || strStarts apiKey "github_pat_" then
    providerCopilot
  else if strStarts apiKey "gsk_" then
    providerGroq
  else if strStarts apiKey "sk-" && !(strHas apiKey "kimi") && !(strHas apiKey "or-v1") then
    providerOpenai
  else if strStarts apiKey "sk-or-v1-" || strHas apiKey "openrouter" then
    providerOpenrouter
  else if strHas apiKey "kimi" || decide (40 < apiKey.length) then
    providerMoonshot
  else if strHas apiKey "grok" || strStarts apiKey "xai-" then
    providerGrok
  else
    providerOpenrouter

/-- `LlmClassifier.loadApiKey`: the stored credential, trimmed
(`(await SecurityManager.getApiKey())?.trim()`). -/
def loadApiKey (stored : Option String) : Option String :=
  stored.map jsTrim

/-- The head of `classifyUrl` up to provider resolution: the
missing-credential precondition check (`if (!this.apiKey) throw ...`,
where the empty string is falsy), then the override-or-detect choice of
profile and the OpenRouter model substitution. -/
def resolveProviderForCall (stored : Option String) (overridePref : Option String)
    (selectedModel : Option String) : Except String AIProvider :=
  match loadApiKey stored with
  | none => .error "API key not configured. Please save your API key first."
  | some k =>
    if k = "" then .error "API key not configured. Please save your API key first."
    else
      let base :=
        match overridePref with
        | some o =>
          match providerLookup o with
          | some p => p
          | none => detectProvider k
        | none => detectProvider k
      let prov :=
        if base.name = "OpenRouter" then
          match selectedModel with
          | some m => { base with model := m }
          | none => base
        else base
      .ok prov

/-- The outcome of one completion attempt against the Inference Client:
success with the response text, a typed API error with its HTTP-like status
and message, or any other failure. -/
inductive CompletionOutcome where
  | ok (content : String)
  | apiError (status : Nat) (msg : String)
  | otherError (msg : String)
deriving DecidableEq

/-- The outer catch of `classifyUrl`: map a failure to the user-facing error
message (`401`/`429`/`403`/other API status, generic wrap otherwise). -/
def translateError : CompletionOutcome → String
  | .apiError 401 _ => "Invalid API key. Please check your credentials."
  | .apiError 429 _ => "Rate limit exceeded. Please try again later."
  | .apiError 403 _ => "API access forbidden. Check your API key permissions."
  | .apiError st msg => "API Error (" ++ toString st ++ "): " ++ msg
  | .otherError msg => "Classification failed: " ++ msg
  | .ok _ => ""

/-- The completion stage of `classifyUrl` with its one-shot fallback protocol.
`outcomes n` is the result of the `n`-th completion attempt, `discover` the
result of `chooseDefaultOpenRouterModel`, and `persisted` the stored
OpenRouter model choice. Returns the number of attempts issued, the persisted
choice afterwards, and the call's result. On a 404 API error with the
OpenRouter profile active and no retry yet, the source clears the persisted
choice, discovers and persists a fallback model, and retries exactly once;
with no discoverable fallback it throws `No fallback OpenRouter model
available.`; any other failure (including a failure of the retried attempt)
propagates to the outer catch. -/
def classifyCompletion (providerName : String) (outcomes : Nat → CompletionOutcome)
    (discover : Option String) (persisted : Option String) :
    Nat × Option String × Except String String :=
  match outcomes 0 with
  | .ok c => (1, persisted, .ok c)
  | .apiError st msg =>
    if providerName = "OpenRouter" ∧ st = 404 then
      match discover with
      | some fb =>
        match outcomes 1 with
        | .ok c => (2, some fb, .ok c)
        | e2 => (2, some fb, .error (translateError e2))
      | none =>
        (1, none, .error (translateError (.otherError "No fallback OpenRouter model available.")))
    else (1, persisted, .error (translateError (.apiError st msg)))
  | .otherError msg => (1, persisted, .error (translateError (.otherError msg)))

/-- The parsed JSON classification response: `folderPath` is `some` exactly
when the field is present and is an array, `tags` is `some` when present. -/
structure ParsedResponse where
  folderPath : Option (List String)
  tags : Option (List String)
deriving DecidableEq

/-- The validation/shaping tail of `classifyUrl`: reject a missing
`folderPath`, truncate it to 3 elements (`slice(0, 3)`), and default `tags`
to `[]` (`parsed.tags || []`). -/
def finalizeClassification (p : ParsedResponse) :
    Except String (List String × List String) :=
  match p.folderPath with
  | none => .error "Invalid response format: missing folderPath"
  | some fp => .ok (fp.take 3, p.tags.getD [])

/-- Comparator for `sanitizeSpec`, following the spec's words: keep the first
occurrence of each canonical key and drop every later segment whose key
already appeared earlier in the path. -/
def keepFirstByKey : List String → List String
  | [] => []
  | p :: rest =>
    p :: keepFirstByKey (rest.filter (fun q => normalizeFolderName q != normalizeFolderName p))
termination_by l => l.length
decreasing_by
  simp only [List.length_cons]
  exact Nat.lt_succ_of_le (List.length_filter_le _ _)

/-- The sanitizer as the spec states it: trim each segment, drop segments
empty after trimming, then drop any segment whose canonical key has already
appeared earlier (first occurrence wins, including non-adjacent repeats). -/
def sanitizeSpec (path : List String) : List String :=
  keepFirstByKey ((path.map jsTrim).filter (fun p => decide (0 < p.length)))

deriving instance DecidableEq for Except

/-! ### Claim theorems. -/

/-- C1 counterexample: the claim fails as stated. For the path
`["/ foo /"]` the canonical key of the raw segment keeps a trailing space
(`"foo "`), while the created folder's stored title `" foo "` normalizes to
`"foo"`; the second `ensure` call therefore does not find the folder the
first call created, returns a different folder id, and creates a duplicate
sibling (the store grows from one row to two). -/
theorem ensure_twice_duplicates_cex :
    (ensureFolderPath ((ensureFolderPath ⟨[], 0⟩ ["/ foo /"]).2) ["/ foo /"]).1 ≠
      (ensureFolderPath ⟨[], 0⟩ ["/ foo /"]).1 ∧
    (ensureFolderPath ⟨[], 0⟩ ["/ foo /"]).2.entries.length = 1 ∧
    (ensureFolderPath ((ensureFolderPath ⟨[], 0⟩ ["/ foo /"]).2) ["/ foo /"]).2.entries.length = 2 := by
  decide

/-- C2 counterexample: the claim fails as stated. A protected system root
with no children reports "empty" (`true`) to its caller — the source even
comments `Return true if empty (even if not removed because it's system
folder)` — though it is indeed never deleted. -/
theorem protected_root_reports_empty_cex :
    traverseAndRemove (fun _ => true) (BNode.mk "1" "Bookmarks Bar" none []) =
      ⟨true, 0, [], []⟩ := by
  decide

/-- C2 (amended): during `collect()`, a node whose identifier is in the
protected set is never deleted and never even has removal attempted (its
visit adds nothing to the removed or attempted lists), but it reports
"not empty" only when some child reported content: childless or fully
emptied protected nodes report "empty" upward. -/
theorem protected_node_not_deleted_amended (ro : String → Bool) (i ttl : String)
    (cs : List BNode) (h : i ∈ systemIds) :
    traverseAndRemove ro (BNode.mk i ttl none cs) =
      ⟨!(sweepChildren ro cs).hasContent, (sweepChildren ro cs).count,
       (sweepChildren ro cs).removed, (sweepChildren ro cs).attempted⟩ := by
  simp only [traverseAndRemove]
  simp
  intro _ hn
  exact absurd h hn

/-- Witness for the amended C2 theorem at the childless Bookmarks Bar. -/
theorem protected_node_not_deleted_witness :
    "1" ∈ systemIds ∧
    traverseAndRemove (fun _ => true) (BNode.mk "1" "Bookmarks Bar" none []) =
      ⟨!(sweepChildren (fun _ => true) []).hasContent,
       (sweepChildren (fun _ => true) []).count,
       (sweepChildren (fun _ => true) []).removed,
       (sweepChildren (fun _ => true) []).attempted⟩ :=
  ⟨by decide,
   protected_node_not_deleted_amended (fun _ => true) "1" "Bookmarks Bar" [] (by decide)⟩

/-- C5: on the tree `A → B → C` with `A` the protected root `'1'` and `C` an
empty leaf folder, `collect()` removes `C` and then `B` in the same pass
(removal order `["11", "10"]`), returns a removed-count of `2`, and never
removes `A` even though it ends the pass with all children removed. -/
theorem collect_postorder_cascade :
    removeEmptyFolders (fun _ => true)
      [BNode.mk "1" "A" none [BNode.mk "10" "B" none [BNode.mk "11" "C" none []]]] = 2 ∧
    (traverseAndRemove (fun _ => true)
      (BNode.mk "1" "A" none [BNode.mk "10" "B" none [BNode.mk "11" "C" none []]])).removed =
      ["11", "10"] ∧
    "1" ∉ (traverseAndRemove (fun _ => true)
      (BNode.mk "1" "A" none [BNode.mk "10" "B" none [BNode.mk "11" "C" none []]])).attempted := by
  decide

/-- C7: normalization is a total deterministic function (repeated evaluation
agrees), visually decorated variants normalize equal —
`normalize("💻 Technology") = normalize("🧑‍💻 technology ")` — while
genuinely different words do not: `normalize("💻 Technology") ≠
normalize("tech nology")`. -/
theorem normalize_stable_equiv :
    (∀ a : String, normalizeFolderName a = normalizeFolderName a) ∧
    normalizeFolderName "💻 Technology" = normalizeFolderName "🧑‍💻 technology " ∧
    normalizeFolderName "💻 Technology" ≠ normalizeFolderName "tech nology" :=
  ⟨fun _ => rfl, by decide, by decide⟩

/-- C8: for every successfully parsed response whose `folderPath` is a
sequence, the returned `folderPath` is its first (at most) 3 elements and a
missing `tags` defaults to the empty sequence; in particular a parsed
`folderPath` of length 5 yields its first 3 elements. -/
theorem classification_truncation_defaults :
    (∀ (fp : List String) (tags : Option (List String)),
      finalizeClassification ⟨some fp, tags⟩ = .ok (fp.take 3, tags.getD []) ∧
      (fp.take 3).length ≤ 3) ∧
    finalizeClassification ⟨some ["a", "b", "c", "d", "e"], none⟩ =
      .ok (["a", "b", "c"], []) :=
  ⟨fun fp tags => ⟨rfl, by simp⟩, by decide⟩

/-- C3 counterexample: the claim fails as stated. A credential starting with
the provider-specific prefix `xai-` but longer than 40 characters resolves to
Moonshot, not Grok, because the `xai-`/`grok` rule is ordered after the
length-based heuristic. -/
theorem detectProvider_xai_long_cex :
    detectProvider "xai-aaaaaaaaaaaaaaaaaaaaaaaaaaaaaaaaaaaaa" = providerMoonshot ∧
    detectProvider "xai-aaaaaaaaaaaaaaaaaaaaaaaaaaaaaaaaaaaaa" ≠ providerGrok ∧
    strStarts "xai-aaaaaaaaaaaaaaaaaaaaaaaaaaaaaaaaaaaaa" "xai-" = true ∧
    40 < ("xai-aaaaaaaaaaaaaaaaaaaaaaaaaaaaaaaaaaaaa" : String).length := by
  decide

/-- C4 counterexample: the claim fails as stated. When the first and the
retried completion both fail with the 404 not-found condition (with a
fallback model discoverable), the call makes exactly two attempts and fails
with the generic translated API error for status 404 — not with the
"no fallback model available" error, which is reserved for the case where no
fallback model is discoverable. -/
theorem fallback_double_404_cex :
    classifyCompletion "OpenRouter" (fun _ => .apiError 404 "Not Found")
      (some "fb-model") (some "old-model") =
      (2, some "fb-model", .error "API Error (404): Not Found") ∧
    "API Error (404): Not Found" ≠
      "Classification failed: No fallback OpenRouter model available." := by
  decide

/-- Decomposition of the leading-run test: `charsLead p l` holds exactly when
`l` extends `p`. -/
theorem charsLead_iff (p : List Char) : ∀ l, charsLead p l = true ↔ ∃ t, l = p ++ t := by
  induction p with
  | nil => intro l; simp [charsLead]
  | cons a as ih =>
    intro l
    cases l with
    | nil => simp [charsLead]
    | cons b bs =>
      simp only [charsLead, Bool.and_eq_true, beq_iff_eq, ih, List.cons_append,
        List.cons.injEq]
      constructor
      · rintro ⟨hab, t, ht⟩
        exact ⟨t, hab.symm, ht⟩
      · rintro ⟨t, hab, ht⟩
        exact ⟨hab.symm, t, ht⟩

/-- C3 (amended): provider resolution is a fixed ordered rule list, but only
the prefix rules evaluated before the length heuristic (`gho_`/`github_pat_`,
`gsk_`, `sk-`, `sk-or-v1-`) take precedence over it. The `xai-` prefix rule is
evaluated after the `length > 40` heuristic, so an `xai-` credential (not
containing `kimi` or `openrouter`) resolves to Grok only when at most 40
characters long and to Moonshot when longer; a credential matching no rule
falls through to the default OpenRouter family. -/
theorem detectProvider_rule_order_amended :
    (∀ k : String, strStarts k "gsk_" = true → detectProvider k = providerGroq) ∧
    (∀ k : String, strStarts k "xai-" = true → strHas k "kimi" = false →
      strHas k "openrouter" = false →
      (k.length ≤ 40 → detectProvider k = providerGrok) ∧
      (40 < k.length → detectProvider k = providerMoonshot)) ∧
    (∀ k : String, strStarts k "gho_" = false → strStarts k "github_pat_" = false →
      strStarts k "gsk_" = false → strStarts k "sk-" = false →
      strHas k "openrouter" = false → strHas k "kimi" = false →
      k.length ≤ 40 → strHas k "grok" = false → strStarts k "xai-" = false →
      detectProvider k = providerOpenrouter) := by
  refine ⟨?_, ?_, ?_⟩
  · intro k hk
    obtain ⟨t, ht⟩ := (charsLead_iff "gsk_".data k.data).mp hk
    have h1 : strStarts k "gho_" = false := by
      simp [strStarts, ht, charsLead]
    have h2 : strStarts k "github_pat_" = false := by
      simp [strStarts, ht, charsLead]
    simp [detectProvider, h1, h2, hk]
  · intro k hx hki hko
    obtain ⟨t, ht⟩ := (charsLead_iff "xai-".data k.data).mp hx
    have h1 : strStarts k "gho_" = false := by simp [strStarts, ht, charsLead]
    have h2 : strStarts k "github_pat_" = false := by simp [strStarts, ht, charsLead]
    have h3 : strStarts k "gsk_" = false := by simp [strStarts, ht, charsLead]
    have h4 : strStarts k "sk-" = false := by simp [strStarts, ht, charsLead]
    have h5 : strStarts k "sk-or-v1-" = false := by simp [strStarts, ht, charsLead]
    constructor
    · intro hlen
      have hlen2 : decide (40 < k.length) = false := by simpa using Nat.not_lt.mpr hlen
      simp [detectProvider, h1, h2, h3, h4, h5, hki, hko, hlen2, hx]
    · intro hlen
      have hlen2 : decide (40 < k.length) = true := by simpa using hlen
      simp [detectProvider, h1, h2, h3, h4, h5, hki, hko, hlen2]
  · intro k h1 h2 h3 h4 hko hki hlen hgr hx
    have h5 : strStarts k "sk-or-v1-" = false := by
      by_contra hc
      have hc2 : strStarts k "sk-or-v1-" = true := by
        cases hfoo : strStarts k "sk-or-v1-" with
        | false => exact absurd hfoo hc
        | true => rfl
      obtain ⟨t, ht⟩ := (charsLead_iff "sk-or-v1-".data k.data).mp hc2
      have : strStarts k "sk-" = true := by
        simp [strStarts, ht, charsLead]
      rw [this] at h4
      exact absurd h4 (by simp)
    have hlen2 : decide (40 < k.length) = false := by simpa using Nat.not_lt.mpr hlen
    simp [detectProvider, h1, h2, h3, h4, h5, hki, hko, hlen2, hgr, hx]

/-- Witness for the amended C3 theorem: a `gsk_` key resolves to Groq, a
short `xai-` key to Grok, a 41-character `xai-` key to Moonshot, and an
unmatched key to the OpenRouter default. -/
theorem detectProvider_rule_order_witness :
    detectProvider "gsk_abc" = providerGroq ∧
    detectProvider "xai-abc" = providerGrok ∧
    detectProvider "xai-aaaaaaaaaaaaaaaaaaaaaaaaaaaaaaaaaaaaa" = providerMoonshot ∧
    detectProvider "hello" = providerOpenrouter :=
  ⟨detectProvider_rule_order_amended.1 "gsk_abc" (by decide),
   (detectProvider_rule_order_amended.2.1 "xai-abc" (by decide) (by decide)
     (by decide)).1 (by decide),
   (detectProvider_rule_order_amended.2.1 "xai-aaaaaaaaaaaaaaaaaaaaaaaaaaaaaaaaaaaaa"
     (by decide) (by decide) (by decide)).2 (by decide),
   detectProvider_rule_order_amended.2.2 "hello" (by decide) (by decide) (by decide)
     (by decide) (by decide) (by decide) (by decide) (by decide) (by decide)⟩

/-- C4 (amended): the completion stage never issues more than two attempts.
When the first attempt fails with the 404 not-found condition while the
OpenRouter profile is active and a fallback model is discoverable, the call
makes exactly one retry, persists the discovered model (the old choice having
been cleared), and — if the retry also fails with 404 — fails fatally with
the generic translated API error for status 404; when no fallback model is
discoverable it fails fatally with the "no fallback model available" error
after the single attempt. -/
theorem fallback_retries_once_amended (pn : String) (oc : Nat → CompletionOutcome)
    (disc : Option String) (per : Option String) :
    (classifyCompletion pn oc disc per).1 ≤ 2 ∧
    (∀ msg, oc 0 = .apiError 404 msg → pn = "OpenRouter" →
      (∀ fb, disc = some fb →
        (classifyCompletion pn oc disc per).1 = 2 ∧
        (classifyCompletion pn oc disc per).2.1 = some fb ∧
        (∀ msg2, oc 1 = .apiError 404 msg2 →
          (classifyCompletion pn oc disc per).2.2 =
            .error ("API Error (404): " ++ msg2))) ∧
      (disc = none →
        classifyCompletion pn oc disc per =
          (1, none, .error "Classification failed: No fallback OpenRouter model available."))) := by
  constructor
  · unfold classifyCompletion
    cases h0 : oc 0 with
    | ok c => simp
    | apiError st msg =>
      by_cases hcond : pn = "OpenRouter" ∧ st = 404
      · simp only [hcond, if_pos]
        cases disc with
        | some fb => cases oc 1 <;> simp
        | none => simp
      · simp [hcond]
    | otherError msg => simp
  · intro msg h0 hpn
    constructor
    · intro fb hdisc
      refine ⟨?_, ?_, ?_⟩
      · simp only [classifyCompletion, h0, hpn, hdisc]
        cases oc 1 <;> simp
      · simp only [classifyCompletion, h0, hpn, hdisc]
        cases oc 1 <;> simp
      · intro msg2 h1
        simp only [classifyCompletion, h0, hpn, hdisc, h1]
        simp [translateError]
        exact congrArg (fun x => x ++ msg2) (by decide)
    · intro hdisc
      simp [classifyCompletion, h0, hpn, hdisc, translateError]

/-- Witness for the amended C4 theorem at a double-404 run and at a run with
no discoverable fallback. -/
theorem fallback_retries_once_witness :
    (classifyCompletion "OpenRouter" (fun _ => .apiError 404 "nf") (some "fb") (some "old")).1 = 2 ∧
    (classifyCompletion "OpenRouter" (fun _ => .apiError 404 "nf") (some "fb") (some "old")).2.1 =
      some "fb" ∧
    (classifyCompletion "OpenRouter" (fun _ => .apiError 404 "nf") (some "fb") (some "old")).2.2 =
      .error ("API Error (404): " ++ "nf") ∧
    classifyCompletion "OpenRouter" (fun _ => .apiError 404 "nf") none (some "old") =
      (1, none, .error "Classification failed: No fallback OpenRouter model available.") := by
  have h1 := (fallback_retries_once_amended "OpenRouter" (fun _ => .apiError 404 "nf")
    (some "fb") (some "old")).2 "nf" rfl rfl
  have h2 := (fallback_retries_once_amended "OpenRouter" (fun _ => .apiError 404 "nf")
    none (some "old")).2 "nf" rfl rfl
  obtain ⟨ha, hb, hc⟩ := h1.1 "fb" rfl
  exact ⟨ha, hb, hc "nf" rfl, h2.2 rfl⟩

/-- Trimming a string of whitespace characters yields the empty string. -/
theorem jsTrim_all_ws (s : String) (h : ∀ c ∈ s.data, isJsWs c = true) : jsTrim s = "" := by
  unfold jsTrim
  have h1 : s.data.dropWhile isJsWs = [] := by
    rw [List.dropWhile_eq_nil_iff]
    exact fun c hc => h c hc
  rw [h1]
  rfl

/-- C10: the stored credential is trimmed before the precondition check, so a
whitespace-only credential is treated exactly like an absent one: the call
fails with the missing-credential precondition error before any provider
resolution, identically to the no-credential case. -/
theorem whitespace_key_precondition (s : String) (overridePref selectedModel : Option String)
    (h : ∀ c ∈ s.data, isJsWs c = true) :
    resolveProviderForCall (some s) overridePref selectedModel =
      .error "API key not configured. Please save your API key first." ∧
    resolveProviderForCall (some s) overridePref selectedModel =
      resolveProviderForCall none overridePref selectedModel := by
  have h0 : jsTrim s = "" := jsTrim_all_ws s h
  constructor <;> simp [resolveProviderForCall, loadApiKey, h0]

/-- Witness for C10 at the three-space credential. -/
theorem whitespace_key_precondition_witness :
    resolveProviderForCall (some "   ") (some "openai") (some "m") =
      .error "API key not configured. Please save your API key first." ∧
    resolveProviderForCall (some "   ") (some "openai") (some "m") =
      resolveProviderForCall none (some "openai") (some "m") :=
  whitespace_key_precondition "   " (some "openai") (some "m") (by decide)

/-- Unfolding `sanitizeGo` when the segment's canonical key was already seen. -/
theorem sanitizeGo_cons_mem (p : String) (rest seen : List String)
    (h : seen.contains (normalizeFolderName p) = true) :
    sanitizeGo (p :: rest) seen = sanitizeGo rest seen := by
  have hm : normalizeFolderName p ∈ seen := by simpa using h
  simp [sanitizeGo, hm]

/-- Unfolding `sanitizeGo` when the segment's canonical key is new. -/
theorem sanitizeGo_cons_new (p : String) (rest seen : List String)
    (h : seen.contains (normalizeFolderName p) = false) :
    sanitizeGo (p :: rest) seen = p :: sanitizeGo rest (normalizeFolderName p :: seen) := by
  have hm : normalizeFolderName p ∉ seen := by simpa using h
  simp [sanitizeGo, hm]

/-- The stateful seen-set loop equals the declarative keep-first-occurrence
comparator, relative to any initial seen set. -/
theorem sanitizeGo_eq_keepFirst :
    ∀ (l : List String) (seen : List String),
      sanitizeGo l seen =
        keepFirstByKey (l.filter (fun q => !(seen.contains (normalizeFolderName q)))) := by
  intro l
  induction l with
  | nil => intro seen; simp [sanitizeGo, keepFirstByKey]
  | cons p rest ih =>
    intro seen
    cases h : seen.contains (normalizeFolderName p) with
    | true =>
      rw [sanitizeGo_cons_mem p rest seen h, ih seen]
      apply congrArg keepFirstByKey
      rw [List.filter_cons]
      rw [show (!(seen.contains (normalizeFolderName p))) = false by rw [h]; rfl]
      simp
    | false =>
      rw [sanitizeGo_cons_new p rest seen h, ih]
      rw [List.filter_cons]
      rw [show (!(seen.contains (normalizeFolderName p))) = true by rw [h]; rfl]
      simp only [if_pos]
      rw [keepFirstByKey]
      apply congrArg (List.cons p)
      apply congrArg keepFirstByKey
      rw [List.filter_filter]
      apply List.filter_congr
      intro q _
      simp only [List.contains_cons, Bool.not_or]
      rfl

/-- C6: `sanitize` trims each segment, drops segments empty after trimming,
and drops every segment whose canonical key already appeared earlier in the
path (first occurrence wins, including non-adjacent repeats) — it coincides
with the declarative `sanitizeSpec` — and in particular
`sanitize(["  ", "News", "World", "News"])` returns `["News", "World"]`. -/
theorem sanitize_spec_correct :
    (∀ path, sanitizeFolderPath path = sanitizeSpec path) ∧
    sanitizeFolderPath ["  ", "News", "World", "News"] = ["News", "World"] := by
  constructor
  · intro path
    unfold sanitizeFolderPath sanitizeSpec
    rw [sanitizeGo_eq_keepFirst]
    simp
  · decide

/-- A successful `find?` is preserved when the list is extended on the right. -/
theorem find?_append_some {α} (p : α → Bool) (l l2 : List α) (a : α)
    (h : l.find? p = some a) : (l ++ l2).find? p = some a := by
  induction l with
  | nil => simp [List.find?] at h
  | cons x xs ih =>
    rw [List.cons_append]
    cases hx : p x with
    | true =>
      rw [List.find?_cons_of_pos _ hx] at h
      rw [List.find?_cons_of_pos _ hx]
      exact h
    | false =>
      rw [List.find?_cons_of_neg _ (by simp [hx])] at h
      rw [List.find?_cons_of_neg _ (by simp [hx])]
      exact ih h

/-- A failed `find?` defers to the extension of the list. -/
theorem find?_append_none {α} (p : α → Bool) (l l2 : List α)
    (h : l.find? p = none) : (l ++ l2).find? p = l2.find? p := by
  induction l with
  | nil => simp
  | cons x xs ih =>
    rw [List.cons_append]
    cases hx : p x with
    | true => rw [List.find?_cons_of_pos _ hx] at h; exact absurd h (by simp)
    | false =>
      rw [List.find?_cons_of_neg _ (by simp [hx])] at h
      rw [List.find?_cons_of_neg _ (by simp [hx])]
      exact ih h

/-- `findFolder` depends on the looked-up name only through its canonical key. -/
theorem findFolder_congr (s : Store) (pid n1 n2 : String)
    (h : normalizeFolderName n1 = normalizeFolderName n2) :
    findFolder s pid n1 = findFolder s pid n2 := by
  unfold findFolder
  rw [h]

/-- A folder found in a store is still found (first) after rows are appended. -/
theorem findFolder_extend (s s2 : Store) (ext : List Entry) (pid name : String) (c : Entry)
    (he : s2.entries = s.entries ++ ext)
    (h : findFolder s pid name = some c) : findFolder s2 pid name = some c := by
  unfold findFolder getChildren at h ⊢
  rw [he, List.filter_append]
  exact find?_append_some _ _ _ _ h

/-- `ensureFolderPath` only ever appends rows to the store. -/
theorem ensureGo_entries_ext :
    ∀ (pth : List String) (s : Store) (cur : String) (prev : Option String),
      ∃ ext, (ensureGo s cur prev pth).2.entries = s.entries ++ ext := by
  intro pth
  induction pth with
  | nil => intro s cur prev; exact ⟨[], by simp [ensureGo]⟩
  | cons raw rest ih =>
    intro s cur prev
    by_cases hp : prev = some (normalizeFolderName raw)
    · simpa only [ensureGo, hp, if_pos] using ih s cur prev
    · cases hf : findFolder s cur raw with
      | some c =>
        have h1 : ensureGo s cur prev (raw :: rest) =
            ensureGo s c.id (some (normalizeFolderName raw)) rest := by
          simp only [ensureGo, hf, if_neg hp]
        rw [h1]
        exact ih s c.id (some (normalizeFolderName raw))
      | none =>
        have h1 : ensureGo s cur prev (raw :: rest) =
            ensureGo (createFolder s cur (storedTitle raw)).2 (genId s.counter)
              (some (normalizeFolderName raw)) rest := by
          simp only [ensureGo, hf, if_neg hp]
          rfl
        rw [h1]
        obtain ⟨ext, hext⟩ := ih (createFolder s cur (storedTitle raw)).2 (genId s.counter)
          (some (normalizeFolderName raw))
        refine ⟨⟨genId s.counter, cur, storedTitle raw, none⟩ :: ext, ?_⟩
        rw [hext]
        simp [createFolder]

/-- Main induction for the amended C1: after a first `ensure` run, a second
run over any path with the same canonical-key sequence (granted that every
created segment's stored title keeps its segment's key) retraces the first
run exactly — it finds every folder, changes nothing, and returns the same
folder id and store. -/
theorem ensureGo_idem :
    ∀ (p q : List String) (s : Store) (cur : String) (prev : Option String),
      p.map normalizeFolderName = q.map normalizeFolderName →
      (∀ x ∈ p, normalizeFolderName (storedTitle x) = normalizeFolderName x) →
      ensureGo ((ensureGo s cur prev p).2) cur prev q = ensureGo s cur prev p := by
  intro p
  induction p with
  | nil =>
    intro q s cur prev hq hst
    have hq0 : q = [] := by
      cases q with
      | nil => rfl
      | cons a l => simp at hq
    subst hq0
    rfl
  | cons x p' ih =>
    intro q s cur prev hq hst
    cases q with
    | nil => simp at hq
    | cons y q' =>
      simp only [List.map_cons, List.cons.injEq] at hq
      obtain ⟨hxy, hq'⟩ := hq
      have hst' : ∀ z ∈ p', normalizeFolderName (storedTitle z) = normalizeFolderName z :=
        fun z hz => hst z (List.mem_cons_of_mem _ hz)
      have hstx : normalizeFolderName (storedTitle x) = normalizeFolderName x :=
        hst x (List.mem_cons_self _ _)
      by_cases hp : prev = some (normalizeFolderName x)
      · have hpy : prev = some (normalizeFolderName y) := by rw [hp, hxy]
        have h1 : ensureGo s cur prev (x :: p') = ensureGo s cur prev p' := by
          simp only [ensureGo, hp, if_pos]
        have h2 : ensureGo ((ensureGo s cur prev p').2) cur prev (y :: q') =
            ensureGo ((ensureGo s cur prev p').2) cur prev q' := by
          simp only [ensureGo, hpy, if_pos]
        rw [h1, h2]
        exact ih q' s cur prev hq' hst'
      · have hpy : ¬ (prev = some (normalizeFolderName y)) := by rw [← hxy]; exact hp
        cases hf : findFolder s cur x with
        | some c =>
          have h1 : ensureGo s cur prev (x :: p') =
              ensureGo s c.id (some (normalizeFolderName x)) p' := by
            simp only [ensureGo, hf, if_neg hp]
          obtain ⟨ext, hext⟩ := ensureGo_entries_ext p' s c.id (some (normalizeFolderName x))
          have hf2 : findFolder (ensureGo s c.id (some (normalizeFolderName x)) p').2 cur y =
              some c := by
            rw [findFolder_congr _ cur y x hxy.symm]
            exact findFolder_extend s _ ext cur x c hext hf
          have h2 : ensureGo ((ensureGo s c.id (some (normalizeFolderName x)) p').2) cur prev
                (y :: q') =
              ensureGo ((ensureGo s c.id (some (normalizeFolderName x)) p').2) c.id
                (some (normalizeFolderName y)) q' := by
            simp only [ensureGo, hf2, if_neg hpy]
          rw [h1, h2, ← hxy]
          exact ih q' s c.id (some (normalizeFolderName x)) hq' hst'
        | none =>
          have h1 : ensureGo s cur prev (x :: p') =
              ensureGo (createFolder s cur (storedTitle x)).2 (genId s.counter)
                (some (normalizeFolderName x)) p' := by
            simp only [ensureGo, hf, if_neg hp]
            rfl
          obtain ⟨ext, hext⟩ := ensureGo_entries_ext p' (createFolder s cur (storedTitle x)).2
            (genId s.counter) (some (normalizeFolderName x))
          have hCentries : (createFolder s cur (storedTitle x)).2.entries =
              s.entries ++ [⟨genId s.counter, cur, storedTitle x, none⟩] := by
            simp [createFolder]
          have hE2 : (ensureGo (createFolder s cur (storedTitle x)).2 (genId s.counter)
                (some (normalizeFolderName x)) p').2.entries =
              s.entries ++ (⟨genId s.counter, cur, storedTitle x, none⟩ :: ext) := by
            rw [hext, hCentries]
            simp
          have hfy : findFolder s cur y = none := by
            rw [findFolder_congr _ cur y x hxy.symm]
            exact hf
          have hf2 : findFolder (ensureGo (createFolder s cur (storedTitle x)).2 (genId s.counter)
                (some (normalizeFolderName x)) p').2 cur y =
              some ⟨genId s.counter, cur, storedTitle x, none⟩ := by
            unfold findFolder getChildren at hfy ⊢
            rw [hE2, List.filter_append]
            rw [find?_append_none _ _ _ hfy]
            rw [List.filter_cons]
            simp only [beq_self_eq_true, if_pos]
            apply List.find?_cons_of_pos
            simp only [Option.isNone_none, Bool.true_and, hstx, hxy]
            exact beq_self_eq_true _
          have h2 : ensureGo ((ensureGo (createFolder s cur (storedTitle x)).2 (genId s.counter)
                (some (normalizeFolderName x)) p').2) cur prev (y :: q') =
              ensureGo ((ensureGo (createFolder s cur (storedTitle x)).2 (genId s.counter)
                (some (normalizeFolderName x)) p').2) (genId s.counter)
                (some (normalizeFolderName y)) q' := by
            simp only [ensureGo, hf2, if_neg hpy]
          rw [h1, h2, ← hxy]
          exact ih q' (createFolder s cur (storedTitle x)).2 (genId s.counter)
            (some (normalizeFolderName x)) hq' hst'

/-- C1 (amended): for every store and every candidate path whose segments'
stored titles (trimmed, slash-stripped) keep their segments' canonical keys,
calling `ensure` twice in sequence against the same store — the second call
observing the folders created by the first — returns the same folder id both
times and the second call creates no new folders (the stores are equal);
more generally the second call may use any path whose segments normalize to
the identical canonical-key sequence and still resolves to the same folder
without creating siblings. Without the stored-title condition this fails:
see the counterexample with the segment `"/ foo /"`, whose own key keeps a
trailing space while its created folder's title does not. -/
theorem ensureFolderPath_idempotent_amended (s : Store) (p q : List String)
    (hq : p.map normalizeFolderName = q.map normalizeFolderName)
    (hst : ∀ x ∈ p, normalizeFolderName (storedTitle x) = normalizeFolderName x) :
    ensureFolderPath ((ensureFolderPath s p).2) q = ensureFolderPath s p :=
  ensureGo_idem p q s "1" none hq hst

/-- Witness for the amended C1 theorem: repeating
`ensure(["Coding","Guides","HTML"])` on the empty store, and re-resolving a
created decorated label through its undecorated variant. -/
theorem ensureFolderPath_idempotent_witness :
    ensureFolderPath ((ensureFolderPath ⟨[], 0⟩ ["Coding", "Guides", "HTML"]).2)
        ["Coding", "Guides", "HTML"] =
      ensureFolderPath ⟨[], 0⟩ ["Coding", "Guides", "HTML"] ∧
    ensureFolderPath ((ensureFolderPath ⟨[], 0⟩ ["💻 Technology"]).2) ["Technology"] =
      ensureFolderPath ⟨[], 0⟩ ["💻 Technology"] :=
  ⟨ensureFolderPath_idempotent_amended ⟨[], 0⟩ _ _ rfl (by decide),
   ensureFolderPath_idempotent_amended ⟨[], 0⟩ ["💻 Technology"] ["Technology"]
     (by decide) (by decide)⟩

/-- Strong induction over the bookmark tree: prove a property of a node from
the property of all its children. -/
theorem BNode.strongInd (P : BNode → Prop)
    (h : ∀ i ttl u cs, (∀ c ∈ cs, P c) → P (BNode.mk i ttl u cs)) : ∀ n, P n
  | .mk i ttl u cs => h i ttl u cs (fun c hc => BNode.strongInd P h c)

/-- Visiting a link node returns not-empty at once: no count, no removals,
no removal attempts. -/
theorem trav_link (ro : String → Bool) (i ttl u : String) (cs : List BNode) :
    traverseAndRemove ro (.mk i ttl (some u) cs) = ⟨false, 0, [], []⟩ := by
  simp [traverseAndRemove]

/-- Unfolding the visit of a folder node. -/
theorem trav_folder (ro : String → Bool) (i ttl : String) (cs : List BNode) :
    traverseAndRemove ro (.mk i ttl none cs) =
      (if (!(sweepChildren ro cs).hasContent && !(systemIds.contains i)) = true then
        (if ro i = true then
          ⟨true, (sweepChildren ro cs).count + 1, (sweepChildren ro cs).removed ++ [i],
           (sweepChildren ro cs).attempted ++ [i]⟩
        else
          ⟨false, (sweepChildren ro cs).count, (sweepChildren ro cs).removed,
           (sweepChildren ro cs).attempted ++ [i]⟩)
      else
        ⟨!(sweepChildren ro cs).hasContent, (sweepChildren ro cs).count,
         (sweepChildren ro cs).removed, (sweepChildren ro cs).attempted⟩) := by
  rw [traverseAndRemove]

/-- Unfolding the child scan at the empty list. -/
theorem sweep_nil (ro : String → Bool) : sweepChildren ro [] = ⟨false, 0, [], []⟩ := by
  rw [sweepChildren]

/-- Unfolding one step of the child scan. -/
theorem sweep_cons (ro : String → Bool) (c : BNode) (rest : List BNode) :
    sweepChildren ro (c :: rest) =
      ⟨(!(traverseAndRemove ro c).reportedEmpty) || (sweepChildren ro rest).hasContent,
       (traverseAndRemove ro c).count + (sweepChildren ro rest).count,
       (traverseAndRemove ro c).removed ++ (sweepChildren ro rest).removed,
       (traverseAndRemove ro c).attempted ++ (sweepChildren ro rest).attempted⟩ := by
  rw [sweepChildren]

/-- Child-list version of `trav_facts`, relative to the facts holding at
each child. -/
theorem sweep_facts_of (ro : String → Bool) (cs : List BNode)
    (hP : ∀ c ∈ cs,
      (∀ a ∈ (traverseAndRemove ro c).attempted, a ∈ folderIds c) ∧
      (∀ a ∈ (traverseAndRemove ro c).removed, a ∈ (traverseAndRemove ro c).attempted) ∧
      (traverseAndRemove ro c).count = (traverseAndRemove ro c).removed.length) :
    (∀ a ∈ (sweepChildren ro cs).attempted, a ∈ folderIdsList cs) ∧
    (∀ a ∈ (sweepChildren ro cs).removed, a ∈ (sweepChildren ro cs).attempted) ∧
    (sweepChildren ro cs).count = (sweepChildren ro cs).removed.length := by
  induction cs with
  | nil => simp [sweep_nil]
  | cons c rest ih =>
    obtain ⟨h1, h2, h3⟩ := hP c (List.mem_cons_self _ _)
    obtain ⟨g1, g2, g3⟩ := ih (fun z hz => hP z (List.mem_cons_of_mem _ hz))
    refine ⟨?_, ?_, ?_⟩
    · intro a ha
      rw [sweep_cons] at ha
      simp only [List.mem_append] at ha
      rw [folderIdsList]
      rcases ha with ha | ha
      · exact List.mem_append_left _ (h1 a ha)
      · exact List.mem_append_right _ (g1 a ha)
    · intro a ha
      rw [sweep_cons] at ha ⊢
      simp only [List.mem_append] at ha ⊢
      rcases ha with ha | ha
      · exact Or.inl (h2 a ha)
      · exact Or.inr (g2 a ha)
    · rw [sweep_cons]
      simp only [List.length_append]
      rw [h3, g3]

/-- Every id the sweep attempts to delete is the id of a folder node, every
removed id was attempted, and the removed-count equals the number of
successful removals. -/
theorem trav_facts (ro : String → Bool) :
    ∀ t : BNode,
      (∀ a ∈ (traverseAndRemove ro t).attempted, a ∈ folderIds t) ∧
      (∀ a ∈ (traverseAndRemove ro t).removed, a ∈ (traverseAndRemove ro t).attempted) ∧
      (traverseAndRemove ro t).count = (traverseAndRemove ro t).removed.length := by
  refine BNode.strongInd _ ?_
  intro i ttl u cs hrec
  cases u with
  | some u0 => simp [trav_link]
  | none =>
    obtain ⟨s1, s2, s3⟩ := sweep_facts_of ro cs hrec
    rw [trav_folder]
    by_cases hcond : (!(sweepChildren ro cs).hasContent && !(systemIds.contains i)) = true
    · rw [if_pos hcond]
      have hfold : ∀ a ∈ (sweepChildren ro cs).attempted ++ [i],
          a ∈ folderIds (BNode.mk i ttl none cs) := by
        intro a ha
        rw [folderIds]
        simp only [List.mem_append, List.mem_singleton] at ha
        rcases ha with ha | ha
        · exact List.mem_cons_of_mem _ (s1 a ha)
        · rw [ha]; exact List.mem_cons_self _ _
      cases hro : ro i with
      | true =>
        rw [if_pos rfl]
        refine ⟨hfold, ?_, ?_⟩
        · intro a ha
          simp only [List.mem_append, List.mem_singleton] at ha ⊢
          rcases ha with ha | ha
          · exact Or.inl (s2 a ha)
          · exact Or.inr ha
        · simp only [List.length_append, List.length_singleton]
          rw [s3]
      | false =>
        rw [if_neg (by simp)]
        refine ⟨hfold, ?_, s3⟩
        intro a ha
        exact List.mem_append_left _ (s2 a ha)
    · rw [if_neg hcond]
      refine ⟨?_, s2, s3⟩
      intro a ha
      rw [folderIds]
      exact List.mem_cons_of_mem _ (s1 a ha)

/-- Child-list version of `trav_empty_no_links`: a content-free scan means a
link-free child list. -/
theorem sweep_noContent_links_of (ro : String → Bool) (cs : List BNode)
    (hP : ∀ c ∈ cs, (traverseAndRemove ro c).reportedEmpty = true → linksOf c = []) :
    (sweepChildren ro cs).hasContent = false → linksOfList cs = [] := by
  induction cs with
  | nil => intro _; rfl
  | cons c rest ih =>
    intro h
    rw [sweep_cons] at h
    simp only [Bool.or_eq_false_iff, Bool.not_eq_false'] at h
    rw [linksOfList]
    rw [hP c (List.mem_cons_self _ _) h.1, ih (fun z hz => hP z (List.mem_cons_of_mem _ hz)) h.2]
    rfl

/-- A subtree whose visit reports "empty" contains no links. -/
theorem trav_empty_no_links (ro : String → Bool) :
    ∀ t : BNode, (traverseAndRemove ro t).reportedEmpty = true → linksOf t = [] := by
  refine BNode.strongInd _ ?_
  intro i ttl u cs hrec
  cases u with
  | some u0 =>
    intro h
    rw [trav_link] at h
    simp at h
  | none =>
    intro h
    rw [trav_folder] at h
    rw [linksOf]
    by_cases hcond : (!(sweepChildren ro cs).hasContent && !(systemIds.contains i)) = true
    · have hnc : (sweepChildren ro cs).hasContent = false := by
        have h1 := (Bool.and_eq_true _ _).mp hcond
        simpa using h1.1
      exact sweep_noContent_links_of ro cs hrec hnc
    · rw [if_neg hcond] at h
      have hnc : (sweepChildren ro cs).hasContent = false := by
        simpa using h
      exact sweep_noContent_links_of ro cs hrec hnc

/-- Subtrees of a list member are subtrees of the list. -/
theorem mem_subtreesOfList_of_mem (s c : BNode) (cs : List BNode)
    (hc : c ∈ cs) (hs : s ∈ subtreesOf c) : s ∈ subtreesOfList cs := by
  induction cs with
  | nil => simp at hc
  | cons d rest ih =>
    rw [subtreesOfList]
    rcases List.mem_cons.mp hc with h | h
    · subst h
      exact List.mem_append_left _ hs
    · exact List.mem_append_right _ (ih h)

/-- A tree is one of its own subtrees. -/
theorem self_mem_subtreesOf (t : BNode) : t ∈ subtreesOf t := by
  cases t with
  | mk i ttl u cs =>
    rw [subtreesOf]
    exact List.mem_cons_self _ _

/-- Child-list version of `trav_removed_subtree`. -/
theorem sweep_removed_subtree_of (ro : String → Bool) (cs : List BNode)
    (hP : ∀ c ∈ cs, ∀ a ∈ (traverseAndRemove ro c).removed,
      ∃ s, s ∈ subtreesOf c ∧ BNode.id s = a ∧ linksOf s = []) :
    ∀ a ∈ (sweepChildren ro cs).removed,
      ∃ s, s ∈ subtreesOfList cs ∧ BNode.id s = a ∧ linksOf s = [] := by
  induction cs with
  | nil => intro a ha; rw [sweep_nil] at ha; simp at ha
  | cons c rest ih =>
    intro a ha
    rw [sweep_cons] at ha
    rcases List.mem_append.mp ha with h | h
    · obtain ⟨s, hs1, hs2, hs3⟩ := hP c (List.mem_cons_self _ _) a h
      exact ⟨s, mem_subtreesOfList_of_mem s c (c :: rest) (List.mem_cons_self _ _) hs1, hs2, hs3⟩
    · obtain ⟨s, hs1, hs2, hs3⟩ := ih (fun z hz => hP z (List.mem_cons_of_mem _ hz)) a h
      rw [subtreesOfList]
      exact ⟨s, List.mem_append_right _ hs1, hs2, hs3⟩

/-- Every id the sweep successfully removed is the id of some link-free
subtree of the snapshot. -/
theorem trav_removed_subtree (ro : String → Bool) :
    ∀ t : BNode, ∀ a ∈ (traverseAndRemove ro t).removed,
      ∃ s, s ∈ subtreesOf t ∧ BNode.id s = a ∧ linksOf s = [] := by
  refine BNode.strongInd _ ?_
  intro i ttl u cs hrec
  cases u with
  | some u0 => intro a ha; rw [trav_link] at ha; simp at ha
  | none =>
    intro a ha
    rw [trav_folder] at ha
    by_cases hcond : (!(sweepChildren ro cs).hasContent && !(systemIds.contains i)) = true
    · rw [if_pos hcond] at ha
      have hnc : (sweepChildren ro cs).hasContent = false := by
        have h1 := (Bool.and_eq_true _ _).mp hcond
        simpa using h1.1
      have hlinks : linksOf (BNode.mk i ttl none cs) = [] := by
        rw [linksOf]
        exact sweep_noContent_links_of ro cs
          (fun c hc => trav_empty_no_links ro c) hnc
      cases hro : ro i with
      | true =>
        rw [hro, if_pos rfl] at ha
        simp only [List.mem_append, List.mem_singleton] at ha
        rcases ha with ha | ha
        · obtain ⟨s, hs1, hs2, hs3⟩ := sweep_removed_subtree_of ro cs
            (fun c hc => hrec c hc) a ha
          refine ⟨s, ?_, hs2, hs3⟩
          rw [subtreesOf]
          exact List.mem_cons_of_mem _ hs1
        · exact ⟨BNode.mk i ttl none cs, self_mem_subtreesOf _, by rw [ha]; rfl, hlinks⟩
      | false =>
        rw [hro, if_neg (by simp)] at ha
        obtain ⟨s, hs1, hs2, hs3⟩ := sweep_removed_subtree_of ro cs
          (fun c hc => hrec c hc) a ha
        refine ⟨s, ?_, hs2, hs3⟩
        rw [subtreesOf]
        exact List.mem_cons_of_mem _ hs1
    · rw [if_neg hcond] at ha
      obtain ⟨s, hs1, hs2, hs3⟩ := sweep_removed_subtree_of ro cs
        (fun c hc => hrec c hc) a ha
      refine ⟨s, ?_, hs2, hs3⟩
      rw [subtreesOf]
      exact List.mem_cons_of_mem _ hs1

/-- Child-list version of `allIds_eq_map_subtrees`. -/
theorem allIdsList_eq_of (cs : List BNode)
    (h : ∀ c ∈ cs, allIds c = (subtreesOf c).map BNode.id) :
    allIdsList cs = (subtreesOfList cs).map BNode.id := by
  induction cs with
  | nil => rfl
  | cons c rest ih =>
    rw [allIdsList, subtreesOfList, List.map_append]
    rw [h c (List.mem_cons_self _ _), ih (fun z hz => h z (List.mem_cons_of_mem _ hz))]

/-- The id list of a tree enumerates the ids of its subtrees. -/
theorem allIds_eq_map_subtrees : ∀ t : BNode, allIds t = (subtreesOf t).map BNode.id := by
  refine BNode.strongInd _ ?_
  intro i ttl u cs hrec
  rw [allIds, subtreesOf, List.map_cons]
  rw [allIdsList_eq_of cs hrec]
  rfl

/-- With duplicate-free ids, a subtree is determined by its root id. -/
theorem subtree_id_inj (t : BNode) (h : (allIds t).Nodup) :
    ∀ a ∈ subtreesOf t, ∀ b ∈ subtreesOf t, BNode.id a = BNode.id b → a = b := by
  rw [allIds_eq_map_subtrees] at h
  exact fun a ha b hb hab => List.inj_on_of_nodup_map h ha hb hab

/-- Child-list version of `eraseIds_keeps_links`. -/
theorem eraseIdsList_keeps_links_of (R : List String) (cs : List BNode)
    (hP : ∀ c ∈ cs, ∀ pr ∈ linksOf c, pr ∈ linksOfOpt (eraseIds R c)) :
    ∀ pr ∈ linksOfList cs, pr ∈ linksOfList (eraseIdsList R cs) := by
  induction cs with
  | nil => intro pr hpr; simp [linksOfList] at hpr
  | cons c rest ih =>
    intro pr hpr
    rw [linksOfList] at hpr
    rcases List.mem_append.mp hpr with h | h
    · have h2 := hP c (List.mem_cons_self _ _) pr h
      rw [eraseIdsList]
      cases he : eraseIds R c with
      | some c2 =>
        rw [he] at h2
        rw [linksOfList]
        exact List.mem_append_left _ h2
      | none =>
        rw [he] at h2
        simp [linksOfOpt] at h2
    · have h2 := ih (fun z hz => hP z (List.mem_cons_of_mem _ hz)) pr h
      rw [eraseIdsList]
      cases he : eraseIds R c with
      | some c2 =>
        rw [linksOfList]
        exact List.mem_append_right _ h2
      | none => exact h2

/-- Erasing a set of ids that only names link-free subtrees preserves every
link of the tree. -/
theorem eraseIds_keeps_links (R : List String) :
    ∀ t : BNode,
      (∀ a ∈ R, ∀ s ∈ subtreesOf t, BNode.id s = a → linksOf s = []) →
      ∀ pr ∈ linksOf t, pr ∈ linksOfOpt (eraseIds R t) := by
  refine BNode.strongInd _ ?_
  intro i ttl u cs hrec hfree pr hpr
  by_cases hin : R.contains i = true
  · have hiR : i ∈ R := by simpa using hin
    have hempty : linksOf (BNode.mk i ttl u cs) = [] :=
      hfree i hiR (BNode.mk i ttl u cs) (self_mem_subtreesOf _) rfl
    rw [hempty] at hpr
    simp at hpr
  · have hfree2 : ∀ c ∈ cs, ∀ a ∈ R, ∀ s ∈ subtreesOf c, BNode.id s = a → linksOf s = [] := by
      intro c hc a ha s hs hid
      refine hfree a ha s ?_ hid
      rw [subtreesOf]
      exact List.mem_cons_of_mem _ (mem_subtreesOfList_of_mem s c cs hc hs)
    have hlist := eraseIdsList_keeps_links_of R cs
      (fun c hc => hrec c hc (hfree2 c hc))
    rw [eraseIds, if_neg (by simpa using hin)]
    rw [linksOfOpt]
    cases u with
    | some u0 =>
      simp only [linksOf] at hpr ⊢
      rcases List.mem_cons.mp hpr with h | h
      · rw [h]; exact List.mem_cons_self _ _
      · exact List.mem_cons_of_mem _ (hlist pr h)
    | none =>
      simp only [linksOf] at hpr ⊢
      exact hlist pr hpr

/-- C9: the empty-folder sweep never invokes the store's delete operation on
a link node — a node carrying a url reports "not empty" immediately and is
never a deletion candidate; every id delete is invoked on is a folder id,
the removed-count counts exactly the removed folders, and (on a tree with
duplicate-free ids) every link present before the sweep is still present
after erasing the removed nodes from the tree. -/
theorem sweep_never_deletes_links (ro : String → Bool) (t : BNode)
    (h : (allIds t).Nodup) :
    (∀ i ttl u cs, traverseAndRemove ro (BNode.mk i ttl (some u) cs) = ⟨false, 0, [], []⟩) ∧
    (∀ a ∈ (traverseAndRemove ro t).attempted, a ∈ folderIds t) ∧
    (∀ a ∈ (traverseAndRemove ro t).removed, a ∈ (traverseAndRemove ro t).attempted) ∧
    (traverseAndRemove ro t).count = (traverseAndRemove ro t).removed.length ∧
    (∀ pr ∈ linksOf t, pr ∈ linksOfOpt (eraseIds (traverseAndRemove ro t).removed t)) := by
  obtain ⟨f1, f2, f3⟩ := trav_facts ro t
  refine ⟨fun i ttl u cs => trav_link ro i ttl u cs, f1, f2, f3, ?_⟩
  apply eraseIds_keeps_links
  intro a ha s hs hid
  obtain ⟨s0, hs0, hid0, hfree0⟩ := trav_removed_subtree ro t a ha
  have hss : s = s0 := subtree_id_inj t h s hs s0 hs0 (by rw [hid, hid0])
  rw [hss]
  exact hfree0

/-- Witness for C9 at a two-node tree (the root `'0'` holding one link). -/
theorem sweep_never_deletes_links_witness :
    (∀ i ttl u cs, traverseAndRemove (fun _ => true) (BNode.mk i ttl (some u) cs) =
      ⟨false, 0, [], []⟩) ∧
    (∀ a ∈ (traverseAndRemove (fun _ => true)
        (BNode.mk "0" "root" none [BNode.mk "9" "x" (some "u") []])).attempted,
      a ∈ folderIds (BNode.mk "0" "root" none [BNode.mk "9" "x" (some "u") []])) ∧
    (∀ a ∈ (traverseAndRemove (fun _ => true)
        (BNode.mk "0" "root" none [BNode.mk "9" "x" (some "u") []])).removed,
      a ∈ (traverseAndRemove (fun _ => true)
        (BNode.mk "0" "root" none [BNode.mk "9" "x" (some "u") []])).attempted) ∧
    (traverseAndRemove (fun _ => true)
        (BNode.mk "0" "root" none [BNode.mk "9" "x" (some "u") []])).count =
      (traverseAndRemove (fun _ => true)
        (BNode.mk "0" "root" none [BNode.mk "9" "x" (some "u") []])).removed.length ∧
    (∀ pr ∈ linksOf (BNode.mk "0" "root" none [BNode.mk "9" "x" (some "u") []]),
      pr ∈ linksOfOpt (eraseIds (traverseAndRemove (fun _ => true)
        (BNode.mk "0" "root" none [BNode.mk "9" "x" (some "u") []])).removed
        (BNode.mk "0" "root" none [BNode.mk "9" "x" (some "u") []]))) :=
  sweep_never_deletes_links (fun _ => true)
    (BNode.mk "0" "root" none [BNode.mk "9" "x" (some "u") []])
    (by simp [allIds, allIdsList])
